import Mathlib

/-
Verification development for the QM9 dataset-to-graph construction and
batching subsystem (src/datasets/qm9_dataset.py, src/datasets/custom_collate.py).

Shallow embedding conventions:
- Tensors of rational scalars become lists of rows (`Vec` = List ℚ); slicing a
  flat table t[a:b] becomes `(t.drop a).take (b - a)`.
- dgl graphs become the `DGraph` structure: node count, directed edge list in
  insertion order, and node/edge attribute tables keyed by attribute name
  (an association list mirrors dgl's ndata/edata dictionaries; a missing key
  is dgl's KeyError).
- Stateful code is explicit state passing: the pairwise memo dictionary is
  threaded through `getPairwise`; in-place graph mutation by collate functions
  returns the post-call value of the input list.
- Fallible access returns `Except DErr`; torch/dgl exceptions become error
  values.
- Randomness (torch.randint / torch.randn) becomes explicit input streams.
- torch.norm (Euclidean distance) and the external dist_emb radial-basis module
  are abstracted as function parameters of the configuration, since their
  numeric values are irrational / external to this repository.
- Real-valued spectral computation (eigendecomposition preprocessing) and
  target normalization statistics are embedded over ℝ in a dedicated section.
-/

abbrev Vec := List ℚ

/-! ### External ogb feature-dimension constants

ogb.utils.features.get_atom_feature_dims() and get_bond_feature_dims() return
the category-vocabulary sizes of the atom / bond feature dimensions; each is
one more than the maximum category value emitted by the corresponding
feature-vector function. These are fixed constants of the external library. -/

def get_atom_feature_dims : List Nat := [119, 4, 12, 12, 10, 6, 6, 2, 2]

def get_bond_feature_dims : List Nat := [5, 6, 2]

/-- QM9Dataset.__init__ line 217: the padding row for virtual complete-graph
edges is built from get_atom_feature_dims() (the source's actual choice),
despite the name suggesting bond dimensions. -/
def bond_padding_indices : Vec := get_atom_feature_dims.map (fun d => (d : ℚ))

/-! ### PairwiseIndexCache (QM9Dataset.get_pairwise, lines 276-284) -/

/-- torch.repeat_interleave(torch.arange(n), n - 1): each source node index
repeated n-1 times consecutively. -/
def pairwiseSrc (n : Nat) : List Nat :=
  (List.range n).flatMap (fun i => List.replicate (n - 1) i)

/-- torch.cat([arange(n)[:idx], arange(n)[idx+1:]]): destination indices for
source node idx, skipping the self loop. -/
def dstSeg (n idx : Nat) : List Nat :=
  (List.range n).take idx ++ (List.range n).drop (idx + 1)

/-- The concatenated destination sequence over all source nodes. -/
def pairwiseDst (n : Nat) : List Nat :=
  (List.range n).flatMap (dstSeg n)

/-- The memo dictionary self.pairwise, threaded explicitly. get_pairwise
returns the cached pair when present, otherwise computes, stores and returns. -/
def getPairwise (cache : List (Nat × (List Nat × List Nat))) (n : Nat) :
    (List Nat × List Nat) × List (Nat × (List Nat × List Nat)) :=
  match cache.lookup n with
  | some p => (p, cache)
  | none => ((pairwiseSrc n, pairwiseDst n), (n, (pairwiseSrc n, pairwiseDst n)) :: cache)

/-- Every cache entry holds the value get_pairwise would compute for its key.
The empty initial cache (self.pairwise = {}) satisfies this trivially and
getPairwise preserves it, so it is an invariant of all reachable caches. -/
def CacheWF (cache : List (Nat × (List Nat × List Nat))) : Prop :=
  ∀ e ∈ cache, e.2 = (pairwiseSrc e.1, pairwiseDst e.1)

/-- The fixed deterministic pair order claimed by the spec: node 0's out-edges
first (excluding the self-edge), then node 1's, and so on. -/
def canonicalPairs (n : Nat) : List (Nat × Nat) :=
  (List.range n).flatMap (fun a => (dstSeg n a).map (fun b => (a, b)))

/-! ### Graph value model (dgl graphs) -/

/-- A dgl homogeneous directed graph: node count, edge list in insertion
order, and the ndata / edata attribute dictionaries. -/
structure DGraph where
  numNodes : Nat
  edges : List (Nat × Nat)
  ndata : List (String × List Vec)
  edata : List (String × List Vec)
deriving DecidableEq

/-- A dgl heterograph with the two relations used by mol_complete_graph:
('atom','bond','atom') and ('atom','complete','atom'). -/
structure HeteroGraph where
  numNodes : Nat
  bondEdges : List (Nat × Nat)
  completeEdges : List (Nat × Nat)
  ndata : List (String × List Vec)
  bondEdata : List (String × List Vec)
deriving DecidableEq

/-- Assignment g.ndata[k] = v / g.edata[k] = v on a dgl attribute dictionary:
replace the row table when the key exists, otherwise append the new key. -/
def assocSet (l : List (String × List Vec)) (k : String) (v : List Vec) :
    List (String × List Vec) :=
  if (l.lookup k).isSome then l.map (fun p => if p.1 = k then (k, v) else p)
  else l ++ [(k, v)]

def setN (g : DGraph) (k : String) (v : List Vec) : DGraph :=
  { g with ndata := assocSet g.ndata k v }

def setE (g : DGraph) (k : String) (v : List Vec) : DGraph :=
  { g with edata := assocSet g.edata k v }

/-- dgl.graph((src, dst), num_nodes=n). -/
def dglGraphN (es : List (Nat × Nat)) (n : Nat) : DGraph :=
  ⟨n, es, [], []⟩

/-- dgl.graph((src, dst)) with the node count inferred as one more than the
largest endpoint index (zero when there are no edges). -/
def inferNumNodes (es : List (Nat × Nat)) : Nat :=
  (es.map (fun e => max e.1 e.2 + 1)).foldr max 0

def dglGraph (es : List (Nat × Nat)) : DGraph :=
  ⟨inferNumNodes es, es, [], []⟩

/-- Edge list of dgl.batch: each constituent's edges shifted by the node-count
offset of the graphs before it. -/
def batchEdges : List DGraph → List (Nat × Nat)
  | [] => []
  | g :: gs => g.edges ++ (batchEdges gs).map (fun e => (e.1 + g.numNodes, e.2 + g.numNodes))

/-- Batched attribute dictionary: dgl.batch concatenates, per key of the first
constituent's dictionary, the row tables of all constituents. -/
def batchTables (ts : List (List (String × List Vec))) : List (String × List Vec) :=
  match ts with
  | [] => []
  | t0 :: _ => (t0.map Prod.fst).map (fun k => (k, ts.flatMap (fun t => (t.lookup k).getD [])))

/-- dgl.batch: disjoint union of graphs with concatenated attribute tables. -/
def dglBatch (gs : List DGraph) : DGraph where
  numNodes := (gs.map (fun g => g.numNodes)).sum
  edges := batchEdges gs
  ndata := batchTables (gs.map (fun g => g.ndata))
  edata := batchTables (gs.map (fun g => g.edata))

/-! ### QM9Dataset flat store and configuration -/

/-- The flat tables loaded from the processed artifact (QM9Dataset.__init__,
lines 206-224). edge_indices is stored as a list of (source, destination)
pairs, the transpose of the 2-by-E tensor. -/
structure Store where
  features : List Vec
  e_features : List Vec
  coords : List Vec
  edge_indices : List (Nat × Nat)
  mol_id : List Nat
  edge_slices : List Nat
  atom_slices : List Nat
  n_atoms : List Nat
  eig_vals : List Vec
  eig_vecs : List Vec
  targets : List Vec
  smilesTab : List String

/-- Dataset configuration fixed at construction. distFn abstracts
torch.norm(x_u - x_v, p=2) (irrational in general); embedder abstracts the
external commons.spherical_encoding.dist_emb module; signFlipRow abstracts the
per-access random sign flips of the san_graph branch; transform is the
optional coordinate transform of the se3Transformer branches. -/
structure Config where
  return_types : List String
  dist_embedding : Bool
  prefetch : Bool
  embedder : Vec → Vec
  distFn : Vec → Vec → ℚ
  signFlipRow : Nat → Vec
  transform : Option (List Vec → List Vec)

/-- The fixed option set validated at construction (lines 147-155). -/
def returnTypeOptions : List String :=
  ["mol_graph", "complete_graph", "mol_graph3d", "complete_graph3d", "san_graph",
   "mol_complete_graph",
   "se3Transformer_graph", "se3Transformer_graph3d",
   "pairwise_distances", "pairwise_distances_squared",
   "pairwise_indices",
   "raw_features", "coordinates",
   "dist_embedding",
   "mol_id", "targets",
   "one_hot_bond_types", "edge_indices", "smiles", "atomic_number_long"]

/-- Construction-time validation (lines 193-194): every requested return type
must be a member of the fixed option set, else an exception is raised. -/
def ValidReturnTypes (rts : List String) : Prop :=
  ∀ rt ∈ rts, rt ∈ returnTypeOptions

/-- Row slice t[a:b] of a flat table. -/
def sliceRows (t : List Vec) (a b : Nat) : List Vec :=
  (t.drop a).take (b - a)

/-- Pair slice edge_indices[:, a:b]. -/
def slicePairs (t : List (Nat × Nat)) (a b : Nat) : List (Nat × Nat) :=
  (t.drop a).take (b - a)

/-- The keys present in self.meta_dict (line 214). Accessing any other key is
a Python KeyError; notably 'edge_indices' is NOT among them although
data_by_type line 422 reads it. -/
def metaDictKeys : List String :=
  ["mol_id", "edge_slices", "atom_slices", "n_atoms"]

/-! ### Graph builders (get_graph / get_complete_graph / get_mol_complete_graph)

The prefetch lists built in __init__ (lines 231-254) and the lazy branches of
the getters (lines 310-334) are embedded as separate definitions so their
agreement or disagreement can be stated. The prefetch loops call get_pairwise
starting from the empty memo; by the cache invariant the returned pair is
always (pairwiseSrc n, pairwiseDst n), which is used directly here. -/

/-- Molecular (bonded) graph for molecule idx: identical expression in the
prefetch loop (line 236) and the lazy branch (lines 314-315). -/
def molGraphAt (s : Store) (idx : Nat) : DGraph :=
  let e_start := s.edge_slices.getD idx 0
  let e_end := s.edge_slices.getD (idx + 1) 0
  dglGraphN (slicePairs s.edge_indices e_start e_end) (s.n_atoms.getD idx 0)

/-- Complete graph for molecule idx: dgl.graph(get_pairwise(n_atoms)), the
identical expression in the prefetch loop (lines 244-245) and the lazy branch
(lines 322-323). -/
def completeGraphAt (s : Store) (idx : Nat) : DGraph :=
  let n := s.n_atoms.getD idx 0
  dglGraph ((pairwiseSrc n).zip (pairwiseDst n))

def heteroNumNodes (bond complete : List (Nat × Nat)) : Nat :=
  max (inferNumNodes bond) (inferNumNodes complete)

/-- Heterograph built by the prefetch loop (lines 251-254): BOTH relations are
built from the pairwise (all-pairs) indices. -/
def molCompletePrefetched (s : Store) (idx : Nat) : HeteroGraph :=
  let n := s.n_atoms.getD idx 0
  let pw := (pairwiseSrc n).zip (pairwiseDst n)
  ⟨heteroNumNodes pw pw, pw, pw, [], []⟩

/-- Heterograph built by the lazy branch of get_mol_complete_graph (lines
330-333): the bond relation from the molecule's real edge slice, the complete
relation from the pairwise indices. -/
def molCompleteAccess (s : Store) (idx : Nat) : HeteroGraph :=
  let e_start := s.edge_slices.getD idx 0
  let e_end := s.edge_slices.getD (idx + 1) 0
  let eidx := slicePairs s.edge_indices e_start e_end
  let n := s.n_atoms.getD idx 0
  let pw := (pairwiseSrc n).zip (pairwiseDst n)
  ⟨heteroNumNodes eidx pw, eidx, pw, [], []⟩

/-- get_mol_complete_graph (lines 326-334). -/
def get_mol_complete_graph (s : Store) (cfg : Config) (idx : Nat) : HeteroGraph :=
  if cfg.prefetch then molCompletePrefetched s idx else molCompleteAccess s idx

/-- get_graph (lines 310-316): both branches build the same graph. -/
def get_graph (s : Store) (cfg : Config) (idx : Nat) : DGraph :=
  if cfg.prefetch then molGraphAt s idx else molGraphAt s idx

/-- get_complete_graph (lines 318-324): both branches build the same graph. -/
def get_complete_graph (s : Store) (cfg : Config) (idx : Nat) : DGraph :=
  if cfg.prefetch then completeGraphAt s idx else completeGraphAt s idx

/-! ### data_by_type (lines 336-426) -/

inductive DErr where
  | unsupported
  | keyError (k : String)
deriving DecidableEq

inductive DVal where
  | graph (g : DGraph)
  | hetero (g : HeteroGraph)
  | rows (rs : List Vec)
  | nat (k : Nat)
  | vec (v : Vec)
  | str (s : String)
deriving DecidableEq

/-- Write rows at the given flat indices: e_features[bond_indices] = bond_features. -/
def writeRows (t : List Vec) (ixs : List Nat) (rows : List Vec) : List Vec :=
  (ixs.zip rows).foldl (fun acc p => acc.set p.1 p.2) t

/-- Complete-graph edge feature assembly (lines 354-361): start from the
padding row (built from get_atom_feature_dims, line 217) replicated to an
n*n table, overwrite the flattened positions src*n+dst of real bonds with the
stored bond features, then gather the table at the pairwise edge positions. -/
def completeEdgeFeat (s : Store) (idx : Nat) : List Vec :=
  let e_start := s.edge_slices.getD idx 0
  let e_end := s.edge_slices.getD (idx + 1) 0
  let n := s.n_atoms.getD idx 0
  let bond_features := sliceRows s.e_features e_start e_end
  let e_features := List.replicate (n * n) bond_padding_indices
  let eidx := slicePairs s.edge_indices e_start e_end
  let bond_indices := eidx.map (fun p => p.1 * n + p.2)
  let table := writeRows e_features bond_indices bond_features
  ((pairwiseSrc n).zip (pairwiseDst n)).map (fun p => table.getD (p.1 * n + p.2) [])

/-- g.edata['d'] = torch.norm(x[src] - x[dst]).unsqueeze(-1): one distance
entry per edge, computed from the graph's node positions. -/
def distRows (dist : Vec → Vec → ℚ) (g : DGraph) : List Vec :=
  let xs := (g.ndata.lookup "x").getD []
  g.edges.map (fun e => [dist (xs.getD e.1 []) (xs.getD e.2 [])])

def vecSub (a b : Vec) : Vec := List.zipWith (fun x y => x - y) a b

/-- san_graph positional encoding row for one atom: torch.stack([eig_vals,
eig_vecs], dim=-1) flattened, after the per-access random sign flip of the
eigenvector entries. -/
def sanPosEncRows (vals flips : Vec) (vecRows : List Vec) : List Vec :=
  vecRows.map (fun row =>
    (vals.zip (List.zipWith (fun v f => v * f) row flips)).flatMap (fun p => [p.1, p.2]))

/-- data_by_type. The elif chain of lines 336-426 becomes an if chain on the
return-type string; the final else raises the unsupported-return-type
exception. -/
def dataByType (s : Store) (cfg : Config) (idx : Nat) (rt : String) : Except DErr DVal :=
  let e_start := s.edge_slices.getD idx 0
  let e_end := s.edge_slices.getD (idx + 1) 0
  let start := s.atom_slices.getD idx 0
  let n := s.n_atoms.getD idx 0
  if rt = "mol_graph" then
    let g := get_graph s cfg idx
    let g := setN g "feat" (sliceRows s.features start (start + n))
    let g := setN g "x" (sliceRows s.coords start (start + n))
    let g := setE g "feat" (sliceRows s.e_features e_start e_end)
    .ok (.graph g)
  else if rt = "mol_graph3d" then
    let g := get_graph s cfg idx
    let g := setN g "x" (sliceRows s.coords start (start + n))
    .ok (.graph g)
  else if rt = "complete_graph" then
    let g := get_complete_graph s cfg idx
    let g := setN g "feat" (sliceRows s.features start (start + n))
    let g := setN g "x" (sliceRows s.coords start (start + n))
    let g := setE g "d" (distRows cfg.distFn g)
    let feat := completeEdgeFeat s idx
    let g := setE g "feat" feat
    if cfg.dist_embedding then
      .ok (.graph (setE g "d_rbf" (feat.map cfg.embedder)))
    else
      .ok (.graph g)
  else if rt = "complete_graph3d" then
    let g := get_complete_graph s cfg idx
    let g := setN g "x" (sliceRows s.coords start (start + n))
    let g := setE g "d" (distRows cfg.distFn g)
    if cfg.dist_embedding then
      match g.edata.lookup "feat" with
      | some v => .ok (.graph (setE g "d_rbf" (v.map cfg.embedder)))
      | none => .error (.keyError "feat")
    else
      .ok (.graph g)
  else if rt = "mol_complete_graph" then
    let g := get_mol_complete_graph s cfg idx
    let g := { g with ndata := assocSet g.ndata "feat" (sliceRows s.features start (start + n)) }
    let g := { g with ndata := assocSet g.ndata "x" (sliceRows s.coords start (start + n)) }
    let g := { g with bondEdata := assocSet g.bondEdata "feat" (sliceRows s.e_features e_start e_end) }
    .ok (.hetero g)
  else if rt = "san_graph" then
    let g := get_complete_graph s cfg idx
    let g := setN g "feat" (sliceRows s.features start (start + n))
    let g := setN g "x" (sliceRows s.coords start (start + n))
    let vals := s.eig_vals.getD idx []
    let vecRows := sliceRows s.eig_vecs start (start + n)
    let g := setN g "pos_enc" (sanPosEncRows vals (cfg.signFlipRow idx) vecRows)
    let e_feats := sliceRows s.e_features e_start e_end
    let w := (e_feats.headD []).length
    let pairs := (pairwiseSrc n).zip (pairwiseDst n)
    let eidx := slicePairs s.edge_indices e_start e_end
    let ids := eidx.map (fun p => pairs.indexOf p)
    let g := setE g "feat" (writeRows (List.replicate pairs.length (List.replicate w 0)) ids e_feats)
    let g := setE g "real" (writeRows (List.replicate pairs.length [0]) ids (List.replicate eidx.length [1]))
    .ok (.graph g)
  else if rt = "se3Transformer_graph" ∨ rt = "se3Transformer_graph3d" then
    let g := get_graph s cfg idx
    let x0 := sliceRows s.coords start (start + n)
    let x := match cfg.transform with
      | some f => f x0
      | none => x0
    let g := setN g "x" x
    let eidx := slicePairs s.edge_indices e_start e_end
    let g := setE g "d" (eidx.map (fun p => vecSub (x.getD p.1 []) (x.getD p.2 [])))
    let g := if rt = "se3Transformer_graph" then
        setE g "feat" (sliceRows s.e_features e_start e_end)
      else g
    .ok (.graph g)
  else if rt = "raw_features" then
    .ok (.rows (sliceRows s.features start (start + n)))
  else if rt = "coordinates" then
    .ok (.rows (sliceRows s.coords start (start + n)))
  else if rt = "mol_id" then
    .ok (.nat (s.mol_id.getD idx 0))
  else if rt = "targets" then
    .ok (.vec (s.targets.getD idx []))
  else if rt = "edge_indices" then
    -- line 422 reads self.meta_dict['edge_indices'], a key absent from
    -- meta_dict (line 214): a KeyError on every access.
    if "edge_indices" ∈ metaDictKeys then
      .ok (.rows [])
    else
      .error (.keyError "edge_indices")
  else if rt = "smiles" then
    .ok (.str (s.smilesTab.getD (s.mol_id.getD idx 0) ""))
  else
    .error .unsupported

/-- getitem (lines 289-308): one entry per requested return type, in the
requested order; an exception in any branch propagates. -/
def getItem (s : Store) (cfg : Config) (idx : Nat) : Except DErr (List DVal) :=
  cfg.return_types.mapM (fun rt => dataByType s cfg idx rt)

/-! ### Collate functions (src/datasets/custom_collate.py) -/

/-- The node indices kept by dgl.remove_nodes(vs), in order. -/
def keepList (n : Nat) (vs : List Nat) : List Nat :=
  (List.range n).filter (fun i => !vs.contains i)

/-- dgl.remove_nodes: drop the listed nodes and their incident edges, relabel
the remaining nodes order-preservingly, and filter all attribute rows. -/
def removeNodes (g : DGraph) (vs : List Nat) : DGraph where
  numNodes := (keepList g.numNodes vs).length
  edges :=
    (g.edges.filter (fun e => !vs.contains e.1 && !vs.contains e.2)).map
      (fun e => ((keepList g.numNodes vs).indexOf e.1, (keepList g.numNodes vs).indexOf e.2))
  ndata :=
    g.ndata.map (fun p => (p.1, (keepList g.numNodes vs).map (fun i => p.2.getD i [])))
  edata :=
    g.edata.map (fun p =>
      (p.1, ((p.2.zip g.edges).filter (fun q => !vs.contains q.2.1 && !vs.contains q.2.2)).map Prod.fst))

/-- NodeDrop3dCollate.__call__ (lines 133-145). draws supplies, per 3D graph,
the torch.randint outcomes (remove_number, remove_indices). The result pairs
the returned batched graphs with the post-call value of the graphs3d input
list: remove_nodes is called directly on the input graph objects, so the list
after the call holds the mutated graphs. -/
def nodeDrop3dCall (graphs graphs3d : List DGraph) (draws : List (Nat × List Nat)) :
    (DGraph × DGraph) × List DGraph :=
  let newGraphs3d := (graphs3d.zip draws).map (fun p =>
    if 0 < p.2.1 then removeNodes p.1 p.2.2 else p.1)
  ((dglBatch graphs, dglBatch newGraphs3d), newGraphs3d)

/-- NodeDrop2dCollate.__call__ (lines 152-164): same shape, dropping from the
2D graphs instead. -/
def nodeDrop2dCall (graphs graphs3d : List DGraph) (draws : List (Nat × List Nat)) :
    (DGraph × DGraph) × List DGraph :=
  let newGraphs := (graphs.zip draws).map (fun p =>
    if 0 < p.2.1 then removeNodes p.1 p.2.2 else p.1)
  ((dglBatch newGraphs, dglBatch graphs3d), newGraphs)

/-- Column slice conformers[:, i*3:(i+1)*3]. -/
def colSlice (rows : List Vec) (i : Nat) : List Vec :=
  rows.map (fun r => (r.drop (i * 3)).take 3)

/-- ConformerCollate.__call__ (lines 83-98): batch the 3D graphs, then build
num_conformers replicas where replica 0 is the batched graph itself (original
node positions) and each replica i for i in range(1, num_conformers) is a deep
copy whose ndata['x'] is replaced by conformer i's 3-wide coordinate slice;
finally batch all replicas. -/
def conformerCollate (numConformers : Nat) (graphs graphs3d : List DGraph)
    (confParts : List (List Vec)) : DGraph × DGraph :=
  let conformers := confParts.flatten
  let b3 := dglBatch graphs3d
  let confGraphs := b3 :: (List.range' 1 (numConformers - 1)).map
    (fun i => setN b3 "x" (colSlice conformers i))
  (dglBatch graphs, dglBatch confGraphs)

def vecAdd (a b : Vec) : Vec := List.zipWith (fun x y => x + y) a b

/-- copy_graph.edata['w'] += noise * std: the noise stream already scaled. -/
def addNoiseW (g : DGraph) (noise : List Vec) : DGraph :=
  setE g "w" (List.zipWith vecAdd ((g.edata.lookup "w").getD []) noise)

/-- NoisedDistancesCollate.__call__ (lines 60-76): batch the 3D graphs, then
append num_noised deep copies with Gaussian noise added to the stored edge
weights (noise stream explicit), and batch original plus copies. -/
def noisedDistancesCollate (numNoised : Nat) (graphs graphs3d : List DGraph)
    (noises : List (List Vec)) : DGraph × DGraph :=
  let b := dglBatch graphs
  let b3 := dglBatch graphs3d
  let noised := b3 :: (List.range numNoised).map (fun i => addNoiseW b3 (noises.getD i []))
  (b, dglBatch noised)

/-! ### Spectral preprocessing (QM9Dataset.process, lines 461-468)

The build step computes, per molecule with dense adjacency adj:
  D = torch.diag(adj.sum(dim=0));  L = D - adj
  N = adj.sum(dim=0) ** -0.5
  L_sym = torch.eye(n_atoms) - N * L * N
N is a one-dimensional tensor, so both multiplications broadcast along the
same (column) axis: (N * L * N)[i,j] = N[j] * L[i,j] * N[j]. The embedding
below reproduces exactly that, next to the matrix the spec claims,
I - D^(-1/2) (D - A) D^(-1/2), whose (i,j) entry is N[i] * L[i,j] * N[j]. -/

def degCol {n : Nat} (A : Fin n → Fin n → ℝ) (j : Fin n) : ℝ := ∑ i, A i j

/-- adj.sum(dim=0) ** -0.5; for a positive degree d this float power equals
1 / sqrt d. -/
noncomputable def nVec {n : Nat} (A : Fin n → Fin n → ℝ) (j : Fin n) : ℝ :=
  (Real.sqrt (degCol A j))⁻¹

/-- L = D - adj with D = diag of column sums. -/
def lapMat {n : Nat} (A : Fin n → Fin n → ℝ) (i j : Fin n) : ℝ :=
  (if i = j then degCol A j else 0) - A i j

/-- The matrix the source actually builds: eye(n) - N * L * N with vector
broadcasting, entrywise 1[i=j] - N[j] * L[i,j] * N[j]. -/
noncomputable def lSymCode {n : Nat} (A : Fin n → Fin n → ℝ) (i j : Fin n) : ℝ :=
  (if i = j then (1 : ℝ) else 0) - nVec A j * lapMat A i j * nVec A j

/-- The matrix the spec states: I - D^(-1/2) (D - A) D^(-1/2), entrywise
1[i=j] - N[i] * L[i,j] * N[j]. -/
noncomputable def lSymSpec {n : Nat} (A : Fin n → Fin n → ℝ) (i j : Fin n) : ℝ :=
  (if i = j then (1 : ℝ) else 0) - nVec A i * lapMat A i j * nVec A j

/-- Adjacency matrix of the path molecule 0 - 1 - 2 (e.g. water with its two
bonds), a minimal input with non-uniform degrees. -/
def pathAdj : Fin 3 → Fin 3 → ℝ := fun i j =>
  if i.val + 1 = j.val ∨ j.val + 1 = i.val then 1 else 0

/-! ### Target normalization (QM9Dataset.__init__, lines 262-268)

self.targets_mean = self.targets.mean(dim=0); self.targets_std =
self.targets.std(dim=0) (torch.std, unbiased: divides by N-1); if normalize,
self.targets = (self.targets - mean) / std. The denormalization contract is
prediction * std + mean. Embedded over ℝ since std involves a square root. -/

noncomputable def colMean (ts : List (List ℝ)) (j : Nat) : ℝ :=
  (ts.map (fun r => r.getD j 0)).sum / ts.length

noncomputable def colStd (ts : List (List ℝ)) (j : Nat) : ℝ :=
  Real.sqrt ((ts.map (fun r => (r.getD j 0 - colMean ts j) ^ 2)).sum / ((ts.length : ℝ) - 1))

noncomputable def normalizeRow (ts : List (List ℝ)) (x : List ℝ) : List ℝ :=
  x.mapIdx (fun j v => (v - colMean ts j) / colStd ts j)

noncomputable def denormalizeRow (ts : List (List ℝ)) (p : List ℝ) : List ℝ :=
  p.mapIdx (fun j v => v * colStd ts j + colMean ts j)

/-- The stored target table after construction: normalized per property iff
normalization is enabled. -/
noncomputable def storedTargets (normalize : Bool) (ts : List (List ℝ)) : List (List ℝ) :=
  if normalize then ts.map (normalizeRow ts) else ts

/-! ### Concrete sample data for closed evaluations -/

/-- A one-molecule store: 3 atoms, one real bond between atoms 0 and 1 stored
in both directions (as the build step emits), bond feature vector [3, 1, 0]. -/
def sampleStore : Store where
  features := [[1], [1], [1]]
  e_features := [[3, 1, 0], [3, 1, 0]]
  coords := [[0, 0, 0], [1, 0, 0], [0, 1, 0]]
  edge_indices := [(0, 1), (1, 0)]
  mol_id := [0]
  edge_slices := [0, 2]
  atom_slices := [0, 3]
  n_atoms := [3]
  eig_vals := [[0]]
  eig_vecs := [[0], [0], [0]]
  targets := [[1]]
  smilesTab := ["O"]

def lazyCfg : Config :=
  ⟨["mol_complete_graph"], false, false, id, fun _ _ => 0, fun _ => [], none⟩

def prefetchCfg : Config :=
  ⟨["mol_complete_graph"], false, true, id, fun _ _ => 0, fun _ => [], none⟩

def distEmbCfg : Config :=
  ⟨["complete_graph", "complete_graph3d"], true, false, id, fun _ _ => 0, fun _ => [], none⟩

def g2dSample : DGraph := ⟨2, [(0, 1), (1, 0)], [("feat", [[1], [2]])], []⟩

def g3dSample : DGraph := ⟨2, [(0, 1), (1, 0)], [("x", [[0, 0, 0], [1, 0, 0]])], []⟩

def g3dConf : DGraph := ⟨1, [], [("x", [[0, 0, 0]])], []⟩

/-! ### Claim C1 -/

/-- C1. The claim states that the complete graph's virtual-edge padding
feature vector is one more than the maximum category value of each
bond-feature dimension, i.e. get_bond_feature_dims. Evaluating the code on
sampleStore: the virtual edge (0,2) (position 1 of the pairwise order)
receives the row built from get_atom_feature_dims (line 217 constructs
bond_padding_indices from the atom table), which differs from the claimed
bond-dimension padding vector in every entry and even in width (9 against 3).
The real bond (0,1) (position 0) does receive the stored bond feature. -/
theorem c1_complete_graph_padding_uses_atom_dims :
    (completeEdgeFeat sampleStore 0).getD 1 [] = get_atom_feature_dims.map (fun d => (d : ℚ)) ∧
    (completeEdgeFeat sampleStore 0).getD 0 [] = [3, 1, 0] ∧
    get_atom_feature_dims.map (fun d => (d : ℚ)) ≠ get_bond_feature_dims.map (fun d => (d : ℚ)) := by
  refine ⟨by decide, by decide, by decide⟩

/-! ### Claim C2 -/

/-- C2. The claim states that for every topology the prefetched and lazily
materialized graphs agree, the heterogeneous graph's bond relation holding
exactly the real bond edges in both modes. Evaluating get_mol_complete_graph
on sampleStore: with prefetching the bond relation is the all-pairs index set
(the prefetch loop, lines 251-254, passes the pairwise indices to both
relations), while without prefetching it is the molecule's real bond slice. -/
theorem c2_prefetch_mol_complete_bond_relation_mismatch :
    (get_mol_complete_graph sampleStore prefetchCfg 0).bondEdges
      = [(0, 1), (0, 2), (1, 0), (1, 2), (2, 0), (2, 1)] ∧
    (get_mol_complete_graph sampleStore lazyCfg 0).bondEdges = [(0, 1), (1, 0)] ∧
    (get_mol_complete_graph sampleStore prefetchCfg 0).bondEdges
      ≠ (get_mol_complete_graph sampleStore lazyCfg 0).bondEdges := by
  refine ⟨by decide, by decide, by decide⟩

/-! ### Claim C3 -/

/-- C3. The claim states that no return kind accepted by construction-time
validation can raise at access time. But the option set (lines 147-155)
contains 'atomic_number_long' (also advertised by the class docstring), for
which data_by_type has no branch: access falls through to the
unsupported-return-type exception of line 426. -/
theorem c3_validated_return_type_raises :
    "atomic_number_long" ∈ returnTypeOptions ∧
    dataByType sampleStore lazyCfg 0 "atomic_number_long" = .error .unsupported := by
  refine ⟨by decide, rfl⟩

/-! ### Claim C4 -/

/-- C4. The claim states that the node-dropping collates never mutate the
per-sample input graphs. Evaluating both variants on a batch of one sample
with a drawn drop count of 1 and drop index 0: after the call the input list
holds a graph with one node instead of two — remove_nodes was called directly
on the input graph object (lines 141 and 160), no copy is taken. -/
theorem c4_node_drop_mutates_input_graphs :
    (nodeDrop3dCall [g2dSample] [g3dSample] [(1, [0])]).2 ≠ [g3dSample] ∧
    ((nodeDrop3dCall [g2dSample] [g3dSample] [(1, [0])]).2.getD 0 (dglGraphN [] 0)).numNodes = 1 ∧
    (nodeDrop2dCall [g2dSample] [g3dSample] [(1, [0])]).2 ≠ [g2dSample] ∧
    ((nodeDrop2dCall [g2dSample] [g3dSample] [(1, [0])]).2.getD 0 (dglGraphN [] 0)).numNodes = 1 := by
  refine ⟨by decide, by decide, by decide, by decide⟩

/-! ### Claim C7 counterexample -/

/-- C7 counterexample. The claim states that replica i of the conformer batch
carries conformer i's 3-wide coordinate slice. With num_conformers = 1 the
output consists solely of replica 0, which keeps the batched 3D graph's
original node positions [[0,0,0]] — not conformer 0's slice [[1,1,1]] — since
the replacement loop (lines 88-91) starts at replica 1. -/
theorem c7_first_replica_keeps_original_positions :
    ((conformerCollate 1 [g2dSample] [g3dConf] [[[1, 1, 1]]]).2.ndata.lookup "x")
      = some [[0, 0, 0]] ∧
    colSlice [[1, 1, 1]] 0 = [[1, 1, 1]] ∧
    ([[(0 : ℚ), 0, 0]] : List Vec) ≠ [[1, 1, 1]] := by
  refine ⟨by decide, by decide, by decide⟩

/-! ### Claim C6 -/

/-- C6. The claim states that the stored spectral data is the
eigendecomposition of L_sym = I - D^(-1/2) (D - A) D^(-1/2). But the source's
expression N * L * N broadcasts the one-dimensional tensor N along the column
axis twice, producing entry (i,j) = 1[i=j] - L[i,j] / d_j: on the 3-atom path
molecule, entry (0,1) of the built matrix is 1/2 while the claimed matrix has
1/sqrt 2 there, and the built matrix is not even symmetric (entry (1,0) is 1),
although it is handed to a symmetric eigendecomposition routine. -/
theorem c6_laplacian_normalization_mismatch :
    lSymCode pathAdj 0 1 = 1 / 2 ∧
    lSymSpec pathAdj 0 1 = (Real.sqrt 2)⁻¹ ∧
    lSymCode pathAdj 0 1 ≠ lSymSpec pathAdj 0 1 ∧
    lSymCode pathAdj 0 1 ≠ lSymCode pathAdj 1 0 := by
  have hd0 : degCol pathAdj 0 = 1 := by
    rw [degCol, Fin.sum_univ_three]
    simp only [pathAdj, Fin.val_zero, Fin.val_one, Fin.val_two]
    norm_num
  have hd1 : degCol pathAdj 1 = 2 := by
    rw [degCol, Fin.sum_univ_three]
    simp only [pathAdj, Fin.val_zero, Fin.val_one, Fin.val_two]
    norm_num
  have hn0 : nVec pathAdj 0 = 1 := by
    simp [nVec, hd0]
  have hn1 : nVec pathAdj 1 = (Real.sqrt 2)⁻¹ := by
    simp [nVec, hd1]
  have hl01 : lapMat pathAdj 0 1 = -1 := by
    norm_num [lapMat, pathAdj]
  have hl10 : lapMat pathAdj 1 0 = -1 := by
    norm_num [lapMat, pathAdj]
  have hsq : (Real.sqrt 2)⁻¹ * (Real.sqrt 2)⁻¹ = 1 / 2 := by
    rw [← mul_inv, Real.mul_self_sqrt (by norm_num : (0 : ℝ) ≤ 2)]
    norm_num
  have hcode01 : lSymCode pathAdj 0 1 = 1 / 2 := by
    simp only [lSymCode, hn1, hl01]
    rw [if_neg (by decide : ¬ (0 : Fin 3) = 1),
      show (0 : ℝ) - (Real.sqrt 2)⁻¹ * (-1) * (Real.sqrt 2)⁻¹
        = (Real.sqrt 2)⁻¹ * (Real.sqrt 2)⁻¹ by ring, hsq]
  have hspec01 : lSymSpec pathAdj 0 1 = (Real.sqrt 2)⁻¹ := by
    simp only [lSymSpec, hn0, hn1, hl01]
    rw [if_neg (by decide : ¬ (0 : Fin 3) = 1)]
    ring
  have hcode10 : lSymCode pathAdj 1 0 = 1 := by
    simp only [lSymCode, hn0, hl10]
    rw [if_neg (by decide : ¬ (1 : Fin 3) = 0)]
    ring
  refine ⟨hcode01, hspec01, ?_, ?_⟩
  · rw [hcode01, hspec01]
    intro h
    rw [← h] at hsq
    norm_num at hsq
  · rw [hcode01, hcode10]
    norm_num

/-! ### Helper lemmas on the pairwise index generator -/

theorem length_dstSeg (n i : Nat) (h : i < n) : (dstSeg n i).length = n - 1 := by
  simp [dstSeg]
  omega

theorem length_pairwiseSrc (n : Nat) : (pairwiseSrc n).length = n * (n - 1) := by
  rw [pairwiseSrc, List.flatMap_def, List.length_flatten, List.map_map,
    show (List.length ∘ fun i : Nat => List.replicate (n - 1) i) = fun _ : Nat => n - 1 by
      funext i; simp,
    List.map_const', List.length_range, List.sum_const_nat]

theorem length_pairwiseDst (n : Nat) : (pairwiseDst n).length = n * (n - 1) := by
  rw [pairwiseDst, List.flatMap_def, List.length_flatten, List.map_map]
  have hc : List.map (List.length ∘ dstSeg n) (List.range n)
      = List.map (fun _ : Nat => n - 1) (List.range n) :=
    List.map_congr_left (fun i hi => length_dstSeg n i (List.mem_range.mp hi))
  rw [hc, List.map_const', List.length_range, List.sum_const_nat]

theorem zip_flatMap {α β γ : Type} (l : List α) (f : α → List β) (g : α → List γ)
    (h : ∀ a ∈ l, (f a).length = (g a).length) :
    (l.flatMap f).zip (l.flatMap g) = l.flatMap (fun a => (f a).zip (g a)) := by
  induction l with
  | nil => simp
  | cons a t ih =>
    rw [List.flatMap_cons, List.flatMap_cons, List.flatMap_cons,
      List.zip_append (h a (List.mem_cons_self a t)),
      ih (fun b hb => h b (List.mem_cons_of_mem a hb))]

theorem zip_replicate_self {α β : Type} (a : α) (l : List β) :
    (List.replicate l.length a).zip l = l.map (fun b => (a, b)) := by
  induction l with
  | nil => simp
  | cons b t ih => simp [List.replicate_succ, ih]

theorem zip_pairwise_eq_canonical (n : Nat) :
    (pairwiseSrc n).zip (pairwiseDst n) = canonicalPairs n := by
  rw [pairwiseSrc, pairwiseDst, canonicalPairs,
    zip_flatMap _ _ _ (fun a ha => by
      rw [List.length_replicate, length_dstSeg n a (List.mem_range.mp ha)])]
  rw [List.flatMap_def, List.flatMap_def,
    List.map_congr_left (fun a ha => by
      rw [← length_dstSeg n a (List.mem_range.mp ha), zip_replicate_self] :
      ∀ a ∈ List.range n,
        (List.replicate (n - 1) a).zip (dstSeg n a) = (dstSeg n a).map (fun b => (a, b)))]

theorem mem_take_range {b k n : Nat} (h : b ∈ (List.range n).take k) : b < k := by
  rw [List.take_range] at h
  exact lt_of_lt_of_le (List.mem_range.mp h) (min_le_left k n)

theorem mem_drop_range {b k n : Nat} (h : b ∈ (List.range n).drop k) : k ≤ b := by
  obtain ⟨j, hj, hji⟩ := List.mem_iff_getElem.mp h
  rw [List.getElem_drop, List.getElem_range] at hji
  omega

theorem mem_canonicalPairs_ne (n : Nat) (p : Nat × Nat) (hp : p ∈ canonicalPairs n) :
    p.1 ≠ p.2 := by
  rw [canonicalPairs] at hp
  obtain ⟨a, _, hb⟩ := List.mem_flatMap.mp hp
  obtain ⟨b, hbmem, rfl⟩ := List.mem_map.mp hb
  intro h
  have hab : a = b := h
  rcases List.mem_append.mp hbmem with htake | hdrop
  · have := mem_take_range htake
    omega
  · have := mem_drop_range hdrop
    omega

/-! ### Claim C5 -/

/-- C5. get_pairwise(n), called on any reachable memo cache, returns source
and destination sequences of length n*(n-1) each, whose zipped pair list has
no self-pair and is exactly the canonical order (node 0's out-edges first,
excluding its self-edge, then node 1's, and so on); and it is memoized: a
second call with the same n returns the identical pair and leaves the cache
unchanged. -/
theorem c5_pairwise_properties (n : Nat) (cache : List (Nat × (List Nat × List Nat)))
    (hwf : CacheWF cache) :
    ((getPairwise cache n).1.1.length = n * (n - 1) ∧
      (getPairwise cache n).1.2.length = n * (n - 1)) ∧
    (∀ p ∈ ((getPairwise cache n).1.1).zip ((getPairwise cache n).1.2), p.1 ≠ p.2) ∧
    ((getPairwise cache n).1.1).zip ((getPairwise cache n).1.2) = canonicalPairs n ∧
    getPairwise (getPairwise cache n).2 n = ((getPairwise cache n).1, (getPairwise cache n).2) := by
  have hval : (getPairwise cache n).1 = (pairwiseSrc n, pairwiseDst n) := by
    rw [getPairwise]
    cases hcase : cache.lookup n with
    | none => rfl
    | some p =>
      obtain ⟨l₁, l₂, hl, _⟩ := List.lookup_eq_some_iff.mp hcase
      have hmem : (n, p) ∈ cache := by
        rw [hl]; exact List.mem_append.mpr (Or.inr (List.mem_cons_self _ _))
      simpa using hwf (n, p) hmem
  have hmemo : getPairwise (getPairwise cache n).2 n
      = ((getPairwise cache n).1, (getPairwise cache n).2) := by
    rw [getPairwise]
    cases hcase : cache.lookup n with
    | none =>
      simp only [getPairwise, hcase]
      rw [List.lookup_cons]
      simp
    | some p =>
      simp only [getPairwise, hcase]
  refine ⟨⟨?_, ?_⟩, ?_, ?_, hmemo⟩
  · rw [hval]; exact length_pairwiseSrc n
  · rw [hval]; exact length_pairwiseDst n
  · rw [hval]
    intro p hp
    exact mem_canonicalPairs_ne n p (zip_pairwise_eq_canonical n ▸ hp)
  · rw [hval]; exact zip_pairwise_eq_canonical n

/-- Witness for C5 at n = 3 on the empty initial cache (self.pairwise = {}),
which trivially satisfies the cache invariant. -/
theorem c5_pairwise_properties_witness :
    ((getPairwise [] 3).1.1.length = 3 * (3 - 1) ∧
      (getPairwise [] 3).1.2.length = 3 * (3 - 1)) ∧
    (∀ p ∈ ((getPairwise [] 3).1.1).zip ((getPairwise [] 3).1.2), p.1 ≠ p.2) ∧
    ((getPairwise [] 3).1.1).zip ((getPairwise [] 3).1.2) = canonicalPairs 3 ∧
    getPairwise (getPairwise [] 3).2 3 = ((getPairwise [] 3).1, (getPairwise [] 3).2) :=
  c5_pairwise_properties 3 [] (by intro e he; simp at he)

/-! ### Helper lemmas on dgl.batch -/

/-- Node-index offset of constituent j inside a batched graph. -/
def nodeOffset (gs : List DGraph) (j : Nat) : Nat :=
  ((gs.take j).map (fun g => g.numNodes)).sum

theorem nodeOffset_zero (gs : List DGraph) : nodeOffset gs 0 = 0 := rfl

theorem nodeOffset_cons_succ (g : DGraph) (t : List DGraph) (j : Nat) :
    nodeOffset (g :: t) (j + 1) = g.numNodes + nodeOffset t j := by
  simp [nodeOffset]

/-- Every edge of a batched graph is an edge of one constituent, shifted by
that constituent's node offset. -/
theorem mem_batchEdges_decomp (gs : List DGraph) (e : Nat × Nat) (he : e ∈ batchEdges gs) :
    ∃ j, ∃ hj : j < gs.length, ∃ p, p ∈ gs[j].edges ∧
      e = (p.1 + nodeOffset gs j, p.2 + nodeOffset gs j) := by
  induction gs generalizing e with
  | nil => simp [batchEdges] at he
  | cons g t ih =>
    rw [batchEdges] at he
    rcases List.mem_append.mp he with h1 | h2
    · exact ⟨0, by simp, e, h1, by simp [nodeOffset_zero]⟩
    · obtain ⟨p, hp, rfl⟩ := List.mem_map.mp h2
      obtain ⟨j, hj, q, hq, hpq⟩ := ih p hp
      refine ⟨j + 1, by simpa using hj, q, hq, ?_⟩
      rw [hpq, nodeOffset_cons_succ]
      simp only [Prod.mk.injEq]
      omega

theorem nodeOffset_const (gs : List DGraph) (c j : Nat)
    (h : ∀ g ∈ gs, g.numNodes = c) (hj : j ≤ gs.length) : nodeOffset gs j = j * c := by
  induction gs generalizing j with
  | nil =>
    have : j = 0 := by simpa using hj
    simp [this, nodeOffset_zero]
  | cons g t ih =>
    cases j with
    | zero => simp [nodeOffset_zero]
    | succ k =>
      rw [nodeOffset_cons_succ, h g (List.mem_cons_self g t),
        ih k (fun x hx => h x (List.mem_cons_of_mem g hx)) (by simpa using hj)]
      ring

theorem lookup_keyfun_of_mem (ks : List String) (F : String → List Vec) (k : String)
    (hk : k ∈ ks) : (ks.map (fun k2 => (k2, F k2))).lookup k = some (F k) := by
  induction ks with
  | nil => simp at hk
  | cons a t ih =>
    rw [List.map_cons, List.lookup_cons]
    by_cases hka : k = a
    · subst hka
      simp
    · rw [show (k == a) = false by simpa using hka]
      exact ih (by
        rcases List.mem_cons.mp hk with h | h
        · exact absurd h hka
        · exact h)

theorem lookup_keyfun_of_not_mem (ks : List String) (F : String → List Vec) (k : String)
    (hk : ¬ k ∈ ks) : (ks.map (fun k2 => (k2, F k2))).lookup k = none := by
  induction ks with
  | nil => simp
  | cons a t ih =>
    rw [List.map_cons, List.lookup_cons]
    rw [show (k == a) = false by simp; intro h; exact hk (h ▸ List.mem_cons_self a t)]
    exact ih (fun h => hk (List.mem_cons_of_mem a h))

theorem mem_keys_of_lookup_some {l : List (String × List Vec)} {k : String} {v : List Vec}
    (h : l.lookup k = some v) : k ∈ l.map Prod.fst := by
  have hs : (l.lookup k).isSome := by rw [h]; rfl
  obtain ⟨p, hp, hk⟩ := List.lookup_isSome_iff.mp hs
  exact List.mem_map.mpr ⟨p, hp, (eq_of_beq hk).symm⟩

theorem not_mem_keys_of_lookup_none {l : List (String × List Vec)} {k : String}
    (h : l.lookup k = none) : ¬ k ∈ l.map Prod.fst := by
  intro hmem
  obtain ⟨p, hp, hk⟩ := List.mem_map.mp hmem
  have := List.lookup_eq_none_iff.mp h p hp
  rw [← hk] at this
  simp at this

/-- Looking up a key in a batched attribute dictionary: present iff present in
the first constituent's dictionary, with the concatenation of all
constituents' rows for that key. -/
theorem lookup_batchTables (t0 : List (String × List Vec)) (ts : List (List (String × List Vec)))
    (k : String) :
    (batchTables (t0 :: ts)).lookup k =
      if k ∈ t0.map Prod.fst
      then some ((t0 :: ts).flatMap (fun t => (t.lookup k).getD []))
      else none := by
  by_cases h : k ∈ t0.map Prod.fst
  · rw [if_pos h]
    exact lookup_keyfun_of_mem _ _ _ h
  · rw [if_neg h]
    exact lookup_keyfun_of_not_mem _ _ _ h

/-! ### Claim C8 -/

/-- C8. The noised-distance collate with num_noised = m returns a batched 3D
graph whose node count is (m+1) times the node count of the batched unnoised
input, whose edge-weight table starts with the unnoised input's edge weights
unchanged (the original batched graph is replica 0 and noise is only added to
the deep copies), and in which every edge stays inside the node block of a
single (replica, source graph) pair — no edge connects two different source
graphs or replicas. -/
theorem c8_noised_distances_structure (m : Nat) (graphs graphs3d : List DGraph)
    (noises : List (List Vec))
    (hwf : ∀ g ∈ graphs3d, ∀ e ∈ g.edges, e.1 < g.numNodes ∧ e.2 < g.numNodes) :
    ((noisedDistancesCollate m graphs graphs3d noises).2.numNodes
        = (m + 1) * (dglBatch graphs3d).numNodes) ∧
    ((((noisedDistancesCollate m graphs graphs3d noises).2.edata.lookup "w").getD []).take
        ((((dglBatch graphs3d).edata.lookup "w").getD []).length)
      = ((dglBatch graphs3d).edata.lookup "w").getD []) ∧
    (∀ e ∈ (noisedDistancesCollate m graphs graphs3d noises).2.edges,
      ∃ r j, r < m + 1 ∧ ∃ hj : j < graphs3d.length,
        r * (dglBatch graphs3d).numNodes + nodeOffset graphs3d j ≤ e.1 ∧
        e.1 < r * (dglBatch graphs3d).numNodes + nodeOffset graphs3d j
            + graphs3d[j].numNodes ∧
        r * (dglBatch graphs3d).numNodes + nodeOffset graphs3d j ≤ e.2 ∧
        e.2 < r * (dglBatch graphs3d).numNodes + nodeOffset graphs3d j
            + graphs3d[j].numNodes) := by
  set b3 := dglBatch graphs3d with hb3
  set L := b3 :: (List.range m).map (fun i => addNoiseW b3 (noises.getD i [])) with hL
  have hLnum : ∀ g ∈ L, g.numNodes = b3.numNodes := by
    intro g hg
    rcases List.mem_cons.mp hg with h | h
    · rw [h]
    · obtain ⟨i, _, rfl⟩ := List.mem_map.mp h
      rfl
  have hLedges : ∀ g ∈ L, g.edges = b3.edges := by
    intro g hg
    rcases List.mem_cons.mp hg with h | h
    · rw [h]
    · obtain ⟨i, _, rfl⟩ := List.mem_map.mp h
      rfl
  have hLlen : L.length = m + 1 := by simp [hL]
  have hout : (noisedDistancesCollate m graphs graphs3d noises).2 = dglBatch L := rfl
  refine ⟨?_, ?_, ?_⟩
  · rw [hout]
    show (L.map (fun g => g.numNodes)).sum = (m + 1) * b3.numNodes
    have : L.map (fun g => g.numNodes) = List.replicate (m + 1) b3.numNodes := by
      rw [List.eq_replicate_iff]
      refine ⟨by simpa using hLlen, ?_⟩
      intro x hx
      obtain ⟨g, hg, rfl⟩ := List.mem_map.mp hx
      exact hLnum g hg
    rw [this, List.sum_const_nat]
  · rw [hout]
    show (((batchTables (L.map (fun g => g.edata))).lookup "w").getD []).take
        (((b3.edata.lookup "w").getD []).length) = (b3.edata.lookup "w").getD []
    have hmap : L.map (fun g => g.edata)
        = b3.edata :: ((List.range m).map (fun i => addNoiseW b3 (noises.getD i []))).map
            (fun g => g.edata) := by
      rw [hL]
      rfl
    rw [hmap, lookup_batchTables]
    cases hw : b3.edata.lookup "w" with
    | none =>
      rw [if_neg (not_mem_keys_of_lookup_none hw)]
      simp
    | some w0 =>
      rw [if_pos (mem_keys_of_lookup_some hw)]
      rw [List.flatMap_cons, hw]
      simp only [Option.getD_some]
      exact List.take_left ..
  · intro e he
    rw [hout] at he
    obtain ⟨r, hr, p, hp, he2⟩ := mem_batchEdges_decomp L e he
    have hroff : nodeOffset L r = r * b3.numNodes :=
      nodeOffset_const L b3.numNodes r hLnum (Nat.le_of_lt hr)
    have hpe : p ∈ b3.edges := by
      rw [← hLedges L[r] (List.getElem_mem hr)]
      exact hp
    obtain ⟨j, hj, q, hq, hp2⟩ := mem_batchEdges_decomp graphs3d p hpe
    have hqb := hwf graphs3d[j] (List.getElem_mem hj) q hq
    rw [he2, hp2, hroff]
    exact ⟨r, j, by omega, hj, by simp; omega, by simp; omega, by simp; omega, by simp; omega⟩

/-- Witness for C8: one 3D graph with two nodes and one well-formed edge,
one noised replica. -/
theorem c8_noised_distances_structure_witness :
    ((noisedDistancesCollate 1 [g2dSample] [g3dSample] [[[1], [1]]]).2.numNodes
        = (1 + 1) * (dglBatch [g3dSample]).numNodes) ∧
    ((((noisedDistancesCollate 1 [g2dSample] [g3dSample] [[[1], [1]]]).2.edata.lookup "w").getD []).take
        ((((dglBatch [g3dSample]).edata.lookup "w").getD []).length)
      = ((dglBatch [g3dSample]).edata.lookup "w").getD []) ∧
    (∀ e ∈ (noisedDistancesCollate 1 [g2dSample] [g3dSample] [[[1], [1]]]).2.edges,
      ∃ r j, r < 1 + 1 ∧ ∃ hj : j < [g3dSample].length,
        r * (dglBatch [g3dSample]).numNodes + nodeOffset [g3dSample] j ≤ e.1 ∧
        e.1 < r * (dglBatch [g3dSample]).numNodes + nodeOffset [g3dSample] j
            + ([g3dSample])[j].numNodes ∧
        r * (dglBatch [g3dSample]).numNodes + nodeOffset [g3dSample] j ≤ e.2 ∧
        e.2 < r * (dglBatch [g3dSample]).numNodes + nodeOffset [g3dSample] j
            + ([g3dSample])[j].numNodes) :=
  c8_noised_distances_structure 1 [g2dSample] [g3dSample] [[[1], [1]]] (by decide)

/-! ### Helper lemmas on attribute assignment -/

theorem lookup_replace_self (l : List (String × List Vec)) (k : String) (v : List Vec)
    (h : (l.lookup k).isSome) :
    (l.map (fun p => if p.1 = k then (k, v) else p)).lookup k = some v := by
  induction l with
  | nil => simp at h
  | cons p t ih =>
    rw [List.map_cons]
    by_cases hp : p.1 = k
    · rw [if_pos hp, List.lookup_cons]
      simp
    · rw [if_neg hp]
      have hbeq : (k == p.1) = false := by
        simp
        exact fun he => hp he.symm
      rw [List.lookup_cons]
      rw [hbeq]
      apply ih
      rw [List.lookup_cons, hbeq] at h
      exact h

theorem lookup_assocSet_self (l : List (String × List Vec)) (k : String) (v : List Vec) :
    (assocSet l k v).lookup k = some v := by
  rw [assocSet]
  by_cases h : (l.lookup k).isSome
  · rw [if_pos h]
    exact lookup_replace_self l k v h
  · rw [if_neg h, List.lookup_append]
    have hnone : l.lookup k = none := by
      cases hl : l.lookup k with
      | none => rfl
      | some w => rw [hl] at h; simp at h
    rw [hnone]
    rw [List.lookup_cons]
    simp

/-! ### Claim C7 (amended) -/

/-- C7 amended. Conformer batch assembly with m conformers produces m replicas
of the batched 3D graph merged by disjoint union; replica 0 keeps the batched
graph's original node positions, and each replica i for 1 ≤ i < m has its node
positions replaced by conformer i's 3-wide coordinate slice of the flattened
conformer rows. -/
theorem c7_conformer_replicas_amended (m : Nat) (graphs graphs3d : List DGraph)
    (confParts : List (List Vec)) (hm : 1 ≤ m)
    (xs : List Vec) (hx : (dglBatch graphs3d).ndata.lookup "x" = some xs) :
    ((conformerCollate m graphs graphs3d confParts).2.numNodes
        = m * (dglBatch graphs3d).numNodes) ∧
    ((conformerCollate m graphs graphs3d confParts).2.ndata.lookup "x"
        = some (xs ++ (List.range' 1 (m - 1)).flatMap
            (fun i => colSlice confParts.flatten i))) := by
  set b3 := dglBatch graphs3d with hb3
  set L := b3 :: (List.range' 1 (m - 1)).map
    (fun i => setN b3 "x" (colSlice confParts.flatten i)) with hL
  have hout : (conformerCollate m graphs graphs3d confParts).2 = dglBatch L := rfl
  constructor
  · rw [hout]
    show (L.map (fun g => g.numNodes)).sum = m * b3.numNodes
    have hrep : L.map (fun g => g.numNodes) = List.replicate m b3.numNodes := by
      rw [List.eq_replicate_iff]
      constructor
      · simp [hL]
        omega
      · intro x hx2
        obtain ⟨g, hg, rfl⟩ := List.mem_map.mp hx2
        rcases List.mem_cons.mp hg with h | h
        · rw [h]
        · obtain ⟨i, _, rfl⟩ := List.mem_map.mp h
          rfl
    rw [hrep, List.sum_const_nat]
  · rw [hout]
    show (batchTables (L.map (fun g => g.ndata))).lookup "x" = _
    have hmap : L.map (fun g => g.ndata)
        = b3.ndata :: (List.range' 1 (m - 1)).map
            (fun i => assocSet b3.ndata "x" (colSlice confParts.flatten i)) := by
      rw [hL, List.map_cons, List.map_map]
      rfl
    rw [hmap, lookup_batchTables, if_pos (mem_keys_of_lookup_some hx)]
    rw [List.flatMap_cons, hx]
    simp only [Option.getD_some]
    congr 1
    rw [List.flatMap_def, List.map_map, List.flatMap_def]
    congr 1
    refine congrArg List.flatten (List.map_congr_left ?_)
    intro i _
    show ((assocSet b3.ndata "x" (colSlice confParts.flatten i)).lookup "x").getD [] = _
    rw [lookup_assocSet_self]
    rfl

/-- Witness for C7 at two conformers over a one-node 3D graph whose original
position row differs from both conformer slices. -/
theorem c7_conformer_replicas_amended_witness :
    ((conformerCollate 2 [g2dSample] [g3dConf] [[[1, 1, 1, 2, 2, 2]]]).2.numNodes
        = 2 * (dglBatch [g3dConf]).numNodes) ∧
    ((conformerCollate 2 [g2dSample] [g3dConf] [[[1, 1, 1, 2, 2, 2]]]).2.ndata.lookup "x"
        = some ([[0, 0, 0]] ++ (List.range' 1 (2 - 1)).flatMap
            (fun i => colSlice ([[[1, 1, 1, 2, 2, 2]]] : List (List Vec)).flatten i))) :=
  c7_conformer_replicas_amended 2 [g2dSample] [g3dConf] [[[1, 1, 1, 2, 2, 2]]]
    (by norm_num) [[0, 0, 0]] (by rfl)

/-! ### Claim C10 -/

/-- C10. With dist_embedding enabled, accessing complete_graph3d raises a
lookup error: the radial-basis step reads g.edata['feat'], which the
complete_graph3d branch never assigns (its edge dictionary holds only 'd');
on complete_graph, by contrast, the embedding is computed by applying the
embedder to the assembled categorical edge feature rows, not to the Euclidean
distances. -/
theorem c10_dist_embedding_behavior (s : Store) (cfg : Config) (idx : Nat)
    (h : cfg.dist_embedding = true) :
    dataByType s cfg idx "complete_graph3d" = .error (.keyError "feat") ∧
    ∃ g : DGraph, dataByType s cfg idx "complete_graph" = .ok (.graph g) ∧
      g.edata.lookup "d_rbf" = some ((completeEdgeFeat s idx).map cfg.embedder) := by
  constructor
  · by_cases hp : cfg.prefetch <;>
      simp +decide [dataByType, h, hp, get_complete_graph, completeGraphAt, dglGraph,
        setE, setN, assocSet, List.lookup_cons]
  · by_cases hp : cfg.prefetch <;>
      simp +decide [dataByType, h, hp, get_complete_graph, completeGraphAt, dglGraph,
        setE, setN, assocSet, List.lookup_cons]

/-- Witness for C10 on the sample store with a dist-embedding configuration. -/
theorem c10_dist_embedding_behavior_witness :
    dataByType sampleStore distEmbCfg 0 "complete_graph3d" = .error (.keyError "feat") ∧
    ∃ g : DGraph, dataByType sampleStore distEmbCfg 0 "complete_graph" = .ok (.graph g) ∧
      g.edata.lookup "d_rbf"
        = some ((completeEdgeFeat sampleStore 0).map distEmbCfg.embedder) :=
  c10_dist_embedding_behavior sampleStore distEmbCfg 0 rfl

/-! ### Claim C9 -/

/-- C9. When normalization is enabled, the stored target table is the raw
table transformed per property by subtracting the column mean and dividing by
the column standard deviation, and the denormalization contract
prediction * std + mean is a left inverse of that transform on every target
row, exactly, whenever the stored standard deviations are nonzero. -/
theorem c9_normalization_roundtrip (ts : List (List ℝ)) (x : List ℝ)
    (h : ∀ j, j < x.length → colStd ts j ≠ 0) :
    denormalizeRow ts (normalizeRow ts x) = x ∧
    storedTargets true ts = ts.map (normalizeRow ts) := by
  constructor
  · apply List.ext_getElem
    · simp [denormalizeRow, normalizeRow]
    · intro i h1 h2
      simp only [denormalizeRow, normalizeRow, List.getElem_mapIdx]
      rw [div_mul_cancel₀ _ (h i h2)]
      ring
  · simp [storedTargets]

/-- Witness for C9 at the concrete two-molecule target table [[0], [2]]: the
stored standard deviation of column 0 is sqrt 2, which is nonzero, and the
denormalized normalized row [0] is [0] again. -/
theorem c9_normalization_roundtrip_witness :
    denormalizeRow [[0], [2]] (normalizeRow [[0], [2]] [0]) = [0] :=
  (c9_normalization_roundtrip [[0], [2]] [0] (by
    intro j hj
    have hj0 : j = 0 := by
      simpa using Nat.lt_one_iff.mp (by simpa using hj)
    subst hj0
    have hmean : colMean [[0], [2]] 0 = 1 := by
      simp [colMean]
      try norm_num
    rw [colStd, hmean]
    have harg : ((([[0], [2]] : List (List ℝ)).map (fun r => (r.getD 0 0 - 1) ^ 2)).sum /
        ((([[0], [2]] : List (List ℝ)).length : ℝ) - 1)) = 2 := by
      simp
      try norm_num
    rw [harg]
    have h2 : (0 : ℝ) < Real.sqrt 2 := Real.sqrt_pos.mpr (by norm_num)
    exact ne_of_gt h2)).1
